import Mathlib

/-!
Verification of the placement-solver core of the cnc_frames_milling
application (src/ui/frame/frame_tab.py).

The solver reads its inputs from a dollar-variable store held by the main
window.  Within the repository the numeric variables read by the solver are
only ever written with numeric values (parsed line edits, spin boxes,
checkbox 0/1 flags, rounded auto-calculation results), so the store is
modelled as a record of optional rational values plus booleans for the
active flags (a missing variable is none, matching a None lookup result).
Rationals model the exact decimal arithmetic of the source; every constant
appearing in the code is an exact decimal.

Each definition below is a direct translation of the correspondingly named
method of FrameTab or SimpleDollarLineEdit in src/ui/frame/frame_tab.py.
-/

namespace FrameTab

/-- PM widths and heights, from FrameTab.PM_CONFIG sizes (index 1). -/
def pmSize1 : ℚ × ℚ := (265, 140)

/-- PM_CONFIG sizes, index 2. -/
def pmSize2 : ℚ × ℚ := (140, 175)

/-- PM_CONFIG sizes, index 3. -/
def pmSize3 : ℚ × ℚ := (175, 240)

/-- PM_CONFIG sizes, index 4. -/
def pmSize4 : ℚ × ℚ := (240, 120)

/-- PM_CONFIG lock_safety_distance. -/
def lockSafetyDistance : ℚ := 170

/-- PM_CONFIG hinge_safety_distance. -/
def hingeSafetyDistance : ℚ := 170

/-- PM_CONFIG min_range_size. -/
def minRangeSize : ℚ := 120

/-- Minimum distance from PM1 to PM2: half widths of PM1 and PM2 (202.5). -/
def minPm1ToPm2 : ℚ := pmSize1.1 / 2 + pmSize2.1 / 2

/-- Minimum distance from PM2 to PM3: half widths of PM2 and PM3 (157.5). -/
def minPm2ToPm3 : ℚ := pmSize2.1 / 2 + pmSize3.1 / 2

/-- Minimum distance from PM3 to PM4: half widths of PM3 and PM4 (207.5). -/
def minPm3ToPm4 : ℚ := pmSize3.1 / 2 + pmSize4.1 / 2

/-- Modelled from the spec: the dollar-variable store held by the main
window (ui/main_window.py is not under src; only its readers are).  The
spec data model gives the solver numeric inputs in millimetres, so
positions are optional rationals (none models an unset variable, looked
up as None) and active flags are the boolean truthiness the code applies
via bool(...). -/
structure FrameVars where
  frame_height : Option ℚ
  pm1_position : Option ℚ
  pm2_position : Option ℚ
  pm3_position : Option ℚ
  pm4_position : Option ℚ
  lock_active : Bool
  lock_position : Option ℚ
  hinge1_active : Bool
  hinge1_position : Option ℚ
  hinge2_active : Bool
  hinge2_position : Option ℚ
  hinge3_active : Bool
  hinge3_position : Option ℚ
  hinge4_active : Bool
  hinge4_position : Option ℚ

/-- One obstacle contribution: the code appends the expanded interval
(pos - safety, pos + safety) when the component is active and its position
is truthy and positive (the test pos and pos greater than 0). -/
def obstacleOf (active : Bool) (pos : Option ℚ) (safety : ℚ) : List (ℚ × ℚ) :=
  if active then
    match pos with
    | some p => if 0 < p then [(p - safety, p + safety)] else []
    | none => []
  else []

/-- Obstacle list built in _calculate_pm_positions step 2: lock first,
then hinges 1 to 4, in source order. -/
def collectObstacles (v : FrameVars) : List (ℚ × ℚ) :=
  obstacleOf v.lock_active v.lock_position lockSafetyDistance ++
  obstacleOf v.hinge1_active v.hinge1_position hingeSafetyDistance ++
  obstacleOf v.hinge2_active v.hinge2_position hingeSafetyDistance ++
  obstacleOf v.hinge3_active v.hinge3_position hingeSafetyDistance ++
  obstacleOf v.hinge4_active v.hinge4_position hingeSafetyDistance

/-- Ordering of obstacles by start position, the sort key used by
_calculate_valid_ranges. -/
def obstacleLE (a b : ℚ × ℚ) : Prop := a.1 ≤ b.1

instance : DecidableRel obstacleLE := fun a b => inferInstanceAs (Decidable (a.1 ≤ b.1))

instance : IsTotal (ℚ × ℚ) obstacleLE := ⟨fun a b => le_total a.1 b.1⟩

instance : IsTrans (ℚ × ℚ) obstacleLE := ⟨fun _ _ _ h1 h2 => le_trans h1 h2⟩

/-- Loop body of _calculate_valid_ranges: clip the obstacle to the range,
and if it overlaps the range, emit the gap before it (when nonempty) and
advance the current start past it.  State is (accumulated ranges, current
start). -/
def rangeSubtractStep (range_start range_end : ℚ)
    (st : List (ℚ × ℚ) × ℚ) (ob : ℚ × ℚ) : List (ℚ × ℚ) × ℚ :=
  let obstacle_start := max ob.1 range_start
  let obstacle_end := min ob.2 range_end
  if obstacle_start < range_end ∧ range_start < obstacle_end then
    let acc := if st.2 < obstacle_start then st.1 ++ [(st.2, obstacle_start)] else st.1
    (acc, max st.2 obstacle_end)
  else st

/-- FrameTab._calculate_valid_ranges.  The source sorts the obstacle list
by start position with the stable builtin sort; insertion sort on the
obstacleLE key is such a stable sort.  It then sweeps the obstacles,
collecting the gaps, and closes with the tail range when space remains. -/
def calculateValidRanges (range_start range_end : ℚ)
    (obstacles : List (ℚ × ℚ)) : List (ℚ × ℚ) :=
  let sorted := obstacles.insertionSort obstacleLE
  let st := sorted.foldl (rangeSubtractStep range_start range_end) ([], range_start)
  if st.2 < range_end then st.1 ++ [(st.2, range_end)] else st.1

/-- Step 4 of _calculate_pm_positions: keep only ranges at least
min_range_size wide. -/
def filterValidRanges (ranges : List (ℚ × ℚ)) : List (ℚ × ℚ) :=
  ranges.filter (fun r => decide (minRangeSize ≤ r.2 - r.1))

/-- FrameTab._position_in_valid_ranges: membership in some valid range,
boundaries included. -/
def positionInValidRanges (position : ℚ) (valid_ranges : List (ℚ × ℚ)) : Bool :=
  valid_ranges.any (fun r => decide (r.1 ≤ position ∧ position ≤ r.2))

/-- FrameTab._fallback_pm_positions: cumulative minimum distances from the
PM1 anchor, built by the same fold as the source loop. -/
def fallbackPmPositions (pm1_pos : ℚ) : List ℚ :=
  let min_distances : List ℚ := [minPm1ToPm2, minPm2ToPm3, minPm3ToPm4]
  (min_distances.foldl
    (fun st d => (st.1 ++ [st.2 + d], st.2 + d)) ([pm1_pos], pm1_pos)).1

/-- FrameTab._optimize_pm2_pm3_positions, translated branch for branch. -/
def optimizePm2Pm3Positions (pm1_pos pm4_pos : ℚ)
    (valid_ranges : List (ℚ × ℚ)) : ℚ × ℚ :=
  let pm2_pos := pm1_pos + minPm1ToPm2
  let pm3_pos := pm4_pos - minPm3ToPm4
  if pm3_pos - pm2_pos < minPm2ToPm3 then
    (pm1_pos + minPm1ToPm2, pm1_pos + minPm1ToPm2 + minPm2ToPm3)
  else
    let best_pm2 :=
      if positionInValidRanges pm2_pos valid_ranges then pm2_pos
      else
        match valid_ranges.find? (fun r => decide (pm1_pos + minPm1ToPm2 ≤ r.1)) with
        | some r => r.1
        | none => pm2_pos
    let best_pm3 :=
      if positionInValidRanges pm3_pos valid_ranges then pm3_pos
      else
        match valid_ranges.reverse.find? (fun r => decide (r.2 ≤ pm4_pos - minPm3ToPm4)) with
        | some r => r.2
        | none => pm3_pos
    if best_pm3 - best_pm2 < minPm2ToPm3 then
      let mid_point := (best_pm2 + best_pm3) / 2
      let adj_pm2 := mid_point - minPm2ToPm3 / 2
      let adj_pm3 := mid_point + minPm2ToPm3 / 2
      let fin_pm2 :=
        if positionInValidRanges adj_pm2 valid_ranges then adj_pm2
        else pm1_pos + minPm1ToPm2
      let fin_pm3 :=
        if positionInValidRanges adj_pm3 valid_ranges then adj_pm3
        else fin_pm2 + minPm2ToPm3
      (fin_pm2, fin_pm3)
    else (best_pm2, best_pm3)

/-- FrameTab._calculate_pm_positions.  A falsy or nonpositive frame height
yields the empty list; a degenerate span or an empty filtered range list
yields the fallback; otherwise PM4 sits at the end of the last valid range
and PM2, PM3 come from the optimizer. -/
def calculatePmPositions (v : FrameVars) : List ℚ :=
  match v.frame_height with
  | none => []
  | some frame_height =>
    if frame_height ≤ 0 then []
    else
      let pm1_pos := v.pm1_position.getD (-25)
      let range_start := pm1_pos + minPm1ToPm2
      let range_end := frame_height - pmSize4.2 / 2
      if range_end ≤ range_start then fallbackPmPositions pm1_pos
      else
        let obstacles := collectObstacles v
        let valid_ranges :=
          filterValidRanges (calculateValidRanges range_start range_end obstacles)
        match valid_ranges.getLast? with
        | none => fallbackPmPositions pm1_pos
        | some last =>
          let pm4_pos := last.2
          let best := optimizePm2Pm3Positions pm1_pos pm4_pos valid_ranges
          [pm1_pos, best.1, best.2, pm4_pos]

/-- FrameTab._calculate_hinge_positions: closed-form positions per count,
with the shared last-position rule (1800 when the height reaches 2000,
otherwise height minus 200). -/
def calculateHingePositions (frame_height : Option ℚ) (count : ℤ) : List ℚ :=
  match frame_height with
  | none => []
  | some h =>
    if h ≤ 0 ∨ count ≤ 0 then []
    else if count = 1 then [h / 2]
    else if count = 2 then
      let last_pos := if 2000 ≤ h then 1800 else h - 200
      [150, last_pos]
    else if count = 3 then
      let last_pos := if 2000 ≤ h then 1800 else h - 200
      let middle_pos := 150 + (last_pos - 150) / 2.5
      [150, middle_pos, last_pos]
    else if count = 4 then
      let last_pos := if 2000 ≤ h then 1800 else h - 200
      let total_distance := last_pos - 150
      let d1 := total_distance / 4.75
      [150, 150 + d1, 150 + d1 + 1.5 * d1, last_pos]
    else []

/-- Lookup with the pattern value or 0 used by run_validation: a missing
variable reads as 0 (and a stored 0 stays 0). -/
def getOrZero (x : Option ℚ) : ℚ := x.getD 0

/-- Obstacle center list built in run_validation: lock first, then active
hinges with truthy positive positions. -/
def validationObstacles (v : FrameVars) : List ℚ :=
  (if v.lock_active then
    match v.lock_position with
    | some p => if 0 < p then [p] else []
    | none => []
  else []) ++
  (if v.hinge1_active then
    match v.hinge1_position with
    | some p => if 0 < p then [p] else []
    | none => []
  else []) ++
  (if v.hinge2_active then
    match v.hinge2_position with
    | some p => if 0 < p then [p] else []
    | none => []
  else []) ++
  (if v.hinge3_active then
    match v.hinge3_position with
    | some p => if 0 < p then [p] else []
    | none => []
  else []) ++
  (if v.hinge4_active then
    match v.hinge4_position with
    | some p => if 0 < p then [p] else []
    | none => []
  else [])

/-- FrameTab.run_validation, as the per-PM error vector it computes: a PM
is flagged by a violated consecutive minimum distance, by an obstacle
within the safety distance, or (PM4 only, and only when the frame height
is positive) by exceeding frame height minus half the PM4 height. -/
def runValidation (v : FrameVars) : List Bool :=
  let pm1 := getOrZero v.pm1_position
  let pm2 := getOrZero v.pm2_position
  let pm3 := getOrZero v.pm3_position
  let pm4 := getOrZero v.pm4_position
  let frame_height := getOrZero v.frame_height
  let d12 := decide (pm2 - pm1 < minPm1ToPm2)
  let d23 := decide (pm3 - pm2 < minPm2ToPm3)
  let d34 := decide (pm4 - pm3 < minPm3ToPm4)
  let safety_distance := max lockSafetyDistance hingeSafetyDistance
  let obstacles := validationObstacles v
  let obsHit := fun (p : ℚ) => obstacles.any (fun o => decide (|p - o| < safety_distance))
  let pm4_over :=
    decide (0 < frame_height) && decide (frame_height - pmSize4.2 / 2 < pm4)
  [d12 || obsHit pm1,
   d12 || d23 || obsHit pm2,
   d23 || d34 || obsHit pm3,
   d34 || obsHit pm4 || pm4_over]

/-- The data-model invariant stated in the spec for a returned placement:
consecutive PM centers separated by at least the sums of half widths, no
PM center inside an obstacle-expanded interval, and the PM4 center at most
frame height minus half the PM4 height.  This definition follows the spec
wording (refinement side); it is compared against the solver output. -/
def pmPlacementInvariant (frame_height : ℚ) (obstacles : List (ℚ × ℚ)) :
    List ℚ → Bool
  | [p1, p2, p3, p4] =>
    decide (minPm1ToPm2 ≤ p2 - p1) &&
    decide (minPm2ToPm3 ≤ p3 - p2) &&
    decide (minPm3ToPm4 ≤ p4 - p3) &&
    ([p1, p2, p3, p4].all fun x =>
      obstacles.all fun ob => !(decide (ob.1 ≤ x) && decide (x ≤ ob.2))) &&
    decide (p4 ≤ frame_height - pmSize4.2 / 2)
  | _ => false

/-- Exceptions relevant to the numeric code paths: the two classes caught
by the handlers in frame_tab.py. -/
inductive PyExn where
  | valueError
  | typeError
deriving DecidableEq

/-- Body of the try block of _calculate_pm_positions over the typed store.
Every read is guarded exactly as in the source (truthiness short circuits
before any comparison, the None check precedes the PM1 arithmetic, and
obstacle positions are tested for truthiness before the sign test), so no
operation on a none value is ever performed and no branch throws. -/
def calculatePmPositionsBody (v : FrameVars) : Except PyExn (List ℚ) :=
  Except.ok (calculatePmPositions v)

/-- The full _calculate_pm_positions method: the try body, with ValueError
and TypeError caught and answered by the fallback sequence (the source
reverts to the default anchor -25 when pm1_position was None). -/
def calculatePmPositionsExc (v : FrameVars) : Except PyExn (List ℚ) :=
  match calculatePmPositionsBody v with
  | Except.ok r => Except.ok r
  | Except.error PyExn.valueError =>
      Except.ok (fallbackPmPositions (v.pm1_position.getD (-25)))
  | Except.error PyExn.typeError =>
      Except.ok (fallbackPmPositions (v.pm1_position.getD (-25)))

/-- Conversion step of SimpleDollarLineEdit._on_editing_finished: empty
text becomes 0, text with a dot goes through float conversion, the rest
through int conversion; a failed conversion raises ValueError.  The
builtin float and int acceptors are parameters (their grammars are not
part of this repository); the float-to-int collapse for integral values
does not change the numeric value. -/
def convertEditText (pFloat pInt : String → Option ℚ) (text : String) :
    Except PyExn ℚ :=
  let t := text.trim
  if t.isEmpty then Except.ok 0
  else if t.contains (Char.ofNat 46) then
    match pFloat t with
    | some x => Except.ok x
    | none => Except.error PyExn.valueError
  else
    match pInt t with
    | some x => Except.ok x
    | none => Except.error PyExn.valueError

/-- Result of the editing-finished handler: either the field reverts to
the stored value (no variable change) or the parsed value is sent on. -/
inductive EditResult where
  | reverted
  | changed (value : ℚ)
deriving DecidableEq

/-- SimpleDollarLineEdit._on_editing_finished: ValueError from the
conversion is caught and answered by reverting the field; any other
exception class would escape, but the conversion can only raise
ValueError. -/
def editingFinished (pFloat pInt : String → Option ℚ) (text : String) :
    Except PyExn EditResult :=
  match convertEditText pFloat pInt text with
  | Except.ok v => Except.ok (EditResult.changed v)
  | Except.error PyExn.valueError => Except.ok EditResult.reverted
  | Except.error PyExn.typeError => Except.error PyExn.typeError

/-- Variable store with a frame height and PM1 anchor and nothing else
set: no lock, no hinges, so the obstacle list is empty. -/
def mkVars (fh pm1 : Option ℚ) : FrameVars :=
  { frame_height := fh, pm1_position := pm1,
    pm2_position := none, pm3_position := none, pm4_position := none,
    lock_active := false, lock_position := none,
    hinge1_active := false, hinge1_position := none,
    hinge2_active := false, hinge2_position := none,
    hinge3_active := false, hinge3_position := none,
    hinge4_active := false, hinge4_position := none }

/-- The default application state at the minimum frame height: lock
active at its auto position 1050, three hinges active at the
auto-computed positions for height 840. -/
def vars840Default : FrameVars :=
  { mkVars (some 840) (some (-25)) with
    lock_active := true, lock_position := some 1050,
    hinge1_active := true, hinge1_position := some 150,
    hinge2_active := true, hinge2_position := some 346,
    hinge3_active := true, hinge3_position := some 640 }

/-- Store with no frame height and stored PM positions at exact minimum
spacing, used to probe the validation boundary behaviour. -/
def varsNoHeight : FrameVars :=
  { mkVars none (some 0) with
    pm2_position := some 202.5, pm3_position := some 360,
    pm4_position := some 567.5 }

/-- Store with a positive frame height and a stored PM4 position beyond
the frame-height limit, used to exercise the validation flag. -/
def varsPm4High : FrameVars :=
  { mkVars (some 840) (some 0) with pm4_position := some 800 }

/-- A conversion acceptor that rejects every string, standing in for the
builtin numeric conversions on non-numeric text. -/
def rejectAll : String → Option ℚ := fun _ => none

end FrameTab


/-!
Helper lemmas.  The sweep invariant is the core of the valid-range
subtraction proof: it tracks the fold state of _calculate_valid_ranges
obstacle by obstacle.
-/

namespace FrameTab

theorem rangeSubtractStep_pos (rs re : ℚ) (st : List (ℚ × ℚ) × ℚ) (ob : ℚ × ℚ)
    (h : max ob.1 rs < re ∧ rs < min ob.2 re) :
    rangeSubtractStep rs re st ob =
      ((if st.2 < max ob.1 rs then st.1 ++ [(st.2, max ob.1 rs)] else st.1),
       max st.2 (min ob.2 re)) := by
  simp only [rangeSubtractStep]
  rw [if_pos h]

theorem rangeSubtractStep_neg (rs re : ℚ) (st : List (ℚ × ℚ) × ℚ) (ob : ℚ × ℚ)
    (h : ¬(max ob.1 rs < re ∧ rs < min ob.2 re)) :
    rangeSubtractStep rs re st ob = st := by
  simp only [rangeSubtractStep]
  rw [if_neg h]

set_option maxHeartbeats 2000000 in
theorem sweep_invariant (rs re : ℚ) (hrs : rs < re) :
    ∀ (obs : List (ℚ × ℚ)) (acc : List (ℚ × ℚ)) (cur : ℚ),
    (∀ ob ∈ obs, ob.1 ≤ ob.2) →
    List.Pairwise obstacleLE obs →
    rs ≤ cur → cur ≤ re →
    (∀ r ∈ acc, rs ≤ r.1 ∧ r.1 < r.2 ∧ r.2 ≤ cur) →
    (∀ r ∈ acc, ∀ ob ∈ obs, r.2 ≤ max ob.1 rs) →
    List.Chain' (fun a b => a.2 ≤ b.1) acc →
    rs ≤ (obs.foldl (rangeSubtractStep rs re) (acc, cur)).2 ∧
    cur ≤ (obs.foldl (rangeSubtractStep rs re) (acc, cur)).2 ∧
    (obs.foldl (rangeSubtractStep rs re) (acc, cur)).2 ≤ re ∧
    (∀ r ∈ (obs.foldl (rangeSubtractStep rs re) (acc, cur)).1,
      rs ≤ r.1 ∧ r.1 < r.2 ∧ r.2 ≤ (obs.foldl (rangeSubtractStep rs re) (acc, cur)).2) ∧
    List.Chain' (fun a b => a.2 ≤ b.1) (obs.foldl (rangeSubtractStep rs re) (acc, cur)).1 ∧
    (∀ x : ℚ,
      ((∃ r ∈ (obs.foldl (rangeSubtractStep rs re) (acc, cur)).1, r.1 ≤ x ∧ x < r.2) ∨
        ((obs.foldl (rangeSubtractStep rs re) (acc, cur)).2 ≤ x ∧ x < re)) ↔
      (((∃ r ∈ acc, r.1 ≤ x ∧ x < r.2) ∨ (cur ≤ x ∧ x < re)) ∧
        ∀ ob ∈ obs, ¬(ob.1 ≤ x ∧ x < ob.2))) := by
  intro obs
  induction obs with
  | nil =>
    intro acc cur _ _ hrc hcr hacc _ hchain
    refine ⟨hrc, le_refl _, hcr, hacc, hchain, ?_⟩
    intro x
    simp
  | cons ob rest ih =>
    intro acc cur hwf hsorted hrc hcr hacc hbound hchain
    simp only [List.foldl_cons]
    have hwf_ob : ob.1 ≤ ob.2 := hwf ob (List.mem_cons_self ob rest)
    have hwf_rest : ∀ o ∈ rest, o.1 ≤ o.2 := fun o ho => hwf o (List.mem_cons_of_mem ob ho)
    have hsorted_rest : List.Pairwise obstacleLE rest := hsorted.of_cons
    have hhead : ∀ o ∈ rest, ob.1 ≤ o.1 := fun o ho => (List.pairwise_cons.mp hsorted).1 o ho
    have hbound_ob : ∀ r ∈ acc, r.2 ≤ max ob.1 rs :=
      fun r hr => hbound r hr ob (List.mem_cons_self ob rest)
    by_cases hc : max ob.1 rs < re ∧ rs < min ob.2 re
    · -- the obstacle overlaps the span
      rw [rangeSubtractStep_pos rs re (acc, cur) ob hc]
      have hobre : ob.1 < re := (max_lt_iff.mp hc.1).1
      have hrsob : rs < ob.2 := (lt_min_iff.mp hc.2).1
      have hosoe : max ob.1 rs ≤ min ob.2 re :=
        max_le (le_min hwf_ob hobre.le) (le_min hrsob.le hrs.le)
      have hoere : min ob.2 re ≤ re := min_le_right _ _
      have hrc1 : rs ≤ max cur (min ob.2 re) := le_trans hrc (le_max_left _ _)
      have hcr1 : max cur (min ob.2 re) ≤ re := max_le hcr hoere
      have hacc1mem : ∀ r ∈ (if cur < max ob.1 rs then acc ++ [(cur, max ob.1 rs)] else acc),
          rs ≤ r.1 ∧ r.1 < r.2 ∧ r.2 ≤ max cur (min ob.2 re) := by
        intro r hr
        by_cases hlt : cur < max ob.1 rs
        · rw [if_pos hlt] at hr
          rcases List.mem_append.mp hr with hr | hr
          · exact ⟨(hacc r hr).1, (hacc r hr).2.1,
              le_trans (hacc r hr).2.2 (le_max_left _ _)⟩
          · simp only [List.mem_singleton] at hr
            subst hr
            exact ⟨hrc, hlt, le_trans hosoe (le_max_right _ _)⟩
        · rw [if_neg hlt] at hr
          exact ⟨(hacc r hr).1, (hacc r hr).2.1,
            le_trans (hacc r hr).2.2 (le_max_left _ _)⟩
      have hbound1 : ∀ r ∈ (if cur < max ob.1 rs then acc ++ [(cur, max ob.1 rs)] else acc),
          ∀ o ∈ rest, r.2 ≤ max o.1 rs := by
        intro r hr o ho
        by_cases hlt : cur < max ob.1 rs
        · rw [if_pos hlt] at hr
          rcases List.mem_append.mp hr with hr | hr
          · exact hbound r hr o (List.mem_cons_of_mem ob ho)
          · simp only [List.mem_singleton] at hr
            subst hr
            exact max_le_max (hhead o ho) (le_refl rs)
        · rw [if_neg hlt] at hr
          exact hbound r hr o (List.mem_cons_of_mem ob ho)
      have hchain1 : List.Chain' (fun a b => a.2 ≤ b.1)
          (if cur < max ob.1 rs then acc ++ [(cur, max ob.1 rs)] else acc) := by
        by_cases hlt : cur < max ob.1 rs
        · rw [if_pos hlt, List.chain'_append]
          refine ⟨hchain, List.chain'_singleton _, ?_⟩
          intro a ha b hb
          simp only [List.head?_cons, Option.mem_def, Option.some_inj] at hb
          subst hb
          exact (hacc a (List.mem_of_mem_getLast? ha)).2.2
        · rw [if_neg hlt]
          exact hchain
      have hstepx : ∀ x : ℚ,
          ((∃ r ∈ (if cur < max ob.1 rs then acc ++ [(cur, max ob.1 rs)] else acc),
              r.1 ≤ x ∧ x < r.2) ∨ (max cur (min ob.2 re) ≤ x ∧ x < re)) ↔
          (((∃ r ∈ acc, r.1 ≤ x ∧ x < r.2) ∨ (cur ≤ x ∧ x < re)) ∧
            ¬(ob.1 ≤ x ∧ x < ob.2)) := by
        intro x
        constructor
        · rintro (⟨r, hr, hrx, hxr⟩ | ⟨hc1x, hxre⟩)
          · by_cases hlt : cur < max ob.1 rs
            · rw [if_pos hlt] at hr
              rcases List.mem_append.mp hr with hr | hr
              · refine ⟨Or.inl ⟨r, hr, hrx, hxr⟩, ?_⟩
                rintro ⟨hobx, _⟩
                have h1 : x < max ob.1 rs := lt_of_lt_of_le hxr (hbound_ob r hr)
                have h2 : rs ≤ x := le_trans (hacc r hr).1 hrx
                have h3 := max_le hobx h2
                linarith
              · simp only [List.mem_singleton] at hr
                subst hr
                simp only at hrx hxr
                have hxre2 : x < re := lt_trans hxr hc.1
                refine ⟨Or.inr ⟨hrx, hxre2⟩, ?_⟩
                rintro ⟨hobx, _⟩
                have h2 : rs ≤ x := le_trans hrc hrx
                have h3 := max_le hobx h2
                linarith
            · rw [if_neg hlt] at hr
              refine ⟨Or.inl ⟨r, hr, hrx, hxr⟩, ?_⟩
              rintro ⟨hobx, _⟩
              have h1 : x < max ob.1 rs := lt_of_lt_of_le hxr (hbound_ob r hr)
              have h2 : rs ≤ x := le_trans (hacc r hr).1 hrx
              have h3 := max_le hobx h2
              linarith
          · have hcx : cur ≤ x := le_trans (le_max_left _ _) hc1x
            have hoex : min ob.2 re ≤ x := le_trans (le_max_right _ _) hc1x
            refine ⟨Or.inr ⟨hcx, hxre⟩, ?_⟩
            rintro ⟨_, hxob⟩
            rcases min_le_iff.mp hoex with h | h <;> linarith
        · rintro ⟨hbase | ⟨hcx, hxre⟩, hnob⟩
          · rcases hbase with ⟨r, hr, hrx, hxr⟩
            refine Or.inl ⟨r, ?_, hrx, hxr⟩
            by_cases hlt : cur < max ob.1 rs
            · rw [if_pos hlt]
              exact List.mem_append.mpr (Or.inl hr)
            · rw [if_neg hlt]
              exact hr
          · by_cases hxoe : min ob.2 re ≤ x
            · exact Or.inr ⟨max_le (le_trans hcx (le_refl x)) hxoe, hxre⟩
            · push_neg at hxoe
              rcases lt_min_iff.mp hxoe with ⟨hxob2, _⟩
              have hxob1 : x < ob.1 := by
                by_contra hge
                push_neg at hge
                exact hnob ⟨hge, hxob2⟩
              have hxos : x < max ob.1 rs := lt_max_iff.mpr (Or.inl hxob1)
              have hlt : cur < max ob.1 rs := lt_of_le_of_lt hcx hxos
              rw [if_pos hlt]
              exact Or.inl ⟨(cur, max ob.1 rs), List.mem_append.mpr (Or.inr (List.mem_singleton.mpr rfl)),
                hcx, hxos⟩
      have ihres := ih (if cur < max ob.1 rs then acc ++ [(cur, max ob.1 rs)] else acc)
        (max cur (min ob.2 re)) hwf_rest hsorted_rest hrc1 hcr1 hacc1mem hbound1 hchain1
      rcases ihres with ⟨i1, i2, i3, i4, i5, i6⟩
      refine ⟨i1, le_trans (le_max_left _ _) i2, i3, i4, i5, ?_⟩
      intro x
      rw [i6 x, hstepx x]
      simp only [List.mem_cons, forall_eq_or_imp]
      exact ⟨fun h => ⟨h.1.1, h.1.2, h.2⟩, fun h => ⟨⟨h.1, h.2.1⟩, h.2.2⟩⟩
    · -- the obstacle does not overlap the span
      rw [rangeSubtractStep_neg rs re (acc, cur) ob hc]
      have ihres := ih acc cur hwf_rest hsorted_rest hrc hcr hacc
        (fun r hr o ho => hbound r hr o (List.mem_cons_of_mem ob ho)) hchain
      rcases ihres with ⟨i1, i2, i3, i4, i5, i6⟩
      refine ⟨i1, i2, i3, i4, i5, ?_⟩
      intro x
      rw [i6 x]
      simp only [List.mem_cons, forall_eq_or_imp]
      constructor
      · rintro ⟨hbase, hrest⟩
        refine ⟨hbase, ?_, hrest⟩
        rintro ⟨hox, hxo⟩
        have hx : rs ≤ x ∧ x < re := by
          rcases hbase with ⟨r, hr, hrx, hxr⟩ | ⟨hcx, hxre⟩
          · exact ⟨le_trans (hacc r hr).1 hrx,
              lt_of_lt_of_le hxr (le_trans (hacc r hr).2.2 hcr)⟩
          · exact ⟨le_trans hrc hcx, hxre⟩
        exact hc ⟨lt_of_le_of_lt (max_le hox hx.1) hx.2,
          lt_of_le_of_lt hx.1 (lt_min hxo hx.2)⟩
      · rintro ⟨hbase, _, hrest⟩
        exact ⟨hbase, hrest⟩

end FrameTab

namespace FrameTab

theorem calculateValidRanges_nil (rs re : ℚ) (hrs : rs < re) :
    calculateValidRanges rs re [] = [(rs, re)] := by
  simp [calculateValidRanges, List.insertionSort, hrs]

theorem mem_filterValidRanges (R : List (ℚ × ℚ)) (r : ℚ × ℚ) :
    r ∈ filterValidRanges R ↔ r ∈ R ∧ minRangeSize ≤ r.2 - r.1 := by
  simp [filterValidRanges, List.mem_filter]

theorem valid_ranges_spec (rs re : ℚ) (obstacles : List (ℚ × ℚ)) (hrs : rs < re)
    (hwf : ∀ ob ∈ obstacles, ob.1 ≤ ob.2) :
    (∀ r ∈ calculateValidRanges rs re obstacles, rs ≤ r.1 ∧ r.1 < r.2 ∧ r.2 ≤ re) ∧
    List.Chain' (fun a b => a.2 ≤ b.1) (calculateValidRanges rs re obstacles) ∧
    (∀ x : ℚ, (∃ r ∈ calculateValidRanges rs re obstacles, r.1 ≤ x ∧ x < r.2) ↔
      (rs ≤ x ∧ x < re ∧ ∀ ob ∈ obstacles, ¬(ob.1 ≤ x ∧ x < ob.2))) := by
  have hperm : List.Perm (obstacles.insertionSort obstacleLE) obstacles :=
    List.perm_insertionSort obstacleLE obstacles
  have hwf2 : ∀ ob ∈ obstacles.insertionSort obstacleLE, ob.1 ≤ ob.2 :=
    fun ob hob => hwf ob (hperm.mem_iff.mp hob)
  have hsort : List.Pairwise obstacleLE (obstacles.insertionSort obstacleLE) :=
    List.sorted_insertionSort obstacleLE obstacles
  obtain ⟨i1, i2, i3, i4, i5, i6⟩ :=
    sweep_invariant rs re hrs (obstacles.insertionSort obstacleLE) [] rs hwf2 hsort
      le_rfl hrs.le (by simp) (by simp) (by simp)
  have hdef : calculateValidRanges rs re obstacles =
      (if ((obstacles.insertionSort obstacleLE).foldl (rangeSubtractStep rs re) ([], rs)).2 < re
       then ((obstacles.insertionSort obstacleLE).foldl (rangeSubtractStep rs re) ([], rs)).1 ++
         [(((obstacles.insertionSort obstacleLE).foldl (rangeSubtractStep rs re) ([], rs)).2, re)]
       else ((obstacles.insertionSort obstacleLE).foldl (rangeSubtractStep rs re) ([], rs)).1) := rfl
  set st := (obstacles.insertionSort obstacleLE).foldl (rangeSubtractStep rs re) ([], rs) with hst
  have hoball : ∀ x : ℚ, (∀ ob ∈ obstacles.insertionSort obstacleLE, ¬(ob.1 ≤ x ∧ x < ob.2)) ↔
      (∀ ob ∈ obstacles, ¬(ob.1 ≤ x ∧ x < ob.2)) := by
    intro x
    constructor
    · exact fun h ob hob => h ob (hperm.mem_iff.mpr hob)
    · exact fun h ob hob => h ob (hperm.mem_iff.mp hob)
  by_cases hlt : st.2 < re
  · rw [hdef, if_pos hlt]
    refine ⟨?_, ?_, ?_⟩
    · intro r hr
      rcases List.mem_append.mp hr with hr | hr
      · exact ⟨(i4 r hr).1, (i4 r hr).2.1, le_trans (i4 r hr).2.2 i3⟩
      · simp only [List.mem_singleton] at hr
        subst hr
        exact ⟨i1, hlt, le_refl re⟩
    · rw [List.chain'_append]
      refine ⟨i5, List.chain'_singleton _, ?_⟩
      intro a ha b hb
      simp only [List.head?_cons, Option.mem_def, Option.some_inj] at hb
      subst hb
      exact (i4 a (List.mem_of_mem_getLast? ha)).2.2
    · intro x
      have hx := i6 x
      simp only [List.not_mem_nil, false_and, exists_false, false_or] at hx
      rw [hoball x] at hx
      constructor
      · rintro ⟨r, hr, hrx, hxr⟩
        rcases List.mem_append.mp hr with hr | hr
        · have := hx.mp (Or.inl ⟨r, hr, hrx, hxr⟩)
          exact ⟨this.1.1, this.1.2, this.2⟩
        · simp only [List.mem_singleton] at hr
          subst hr
          have := hx.mp (Or.inr ⟨hrx, hxr⟩)
          exact ⟨this.1.1, this.1.2, this.2⟩
      · rintro ⟨h1, h2, h3⟩
        rcases hx.mpr ⟨⟨h1, h2⟩, h3⟩ with ⟨r, hr, hrx, hxr⟩ | ⟨hstx, hxre⟩
        · exact ⟨r, List.mem_append.mpr (Or.inl hr), hrx, hxr⟩
        · exact ⟨(st.2, re), List.mem_append.mpr (Or.inr (List.mem_singleton.mpr rfl)), hstx, hxre⟩
  · rw [hdef, if_neg hlt]
    push_neg at hlt
    refine ⟨?_, i5, ?_⟩
    · intro r hr
      exact ⟨(i4 r hr).1, (i4 r hr).2.1, le_trans (i4 r hr).2.2 i3⟩
    · intro x
      have hx := i6 x
      simp only [List.not_mem_nil, false_and, exists_false, false_or] at hx
      rw [hoball x] at hx
      constructor
      · rintro ⟨r, hr, hrx, hxr⟩
        have := hx.mp (Or.inl ⟨r, hr, hrx, hxr⟩)
        exact ⟨this.1.1, this.1.2, this.2⟩
      · rintro ⟨h1, h2, h3⟩
        rcases hx.mpr ⟨⟨h1, h2⟩, h3⟩ with ⟨r, hr, hrx, hxr⟩ | ⟨hstx, hxre⟩
        · exact ⟨r, hr, hrx, hxr⟩
        · exact absurd (lt_of_le_of_lt (le_trans hlt hstx) hxre) (lt_irrefl re)
end FrameTab

namespace FrameTab

theorem fallbackPmPositions_eq (p : ℚ) :
    fallbackPmPositions p = [p, p + 202.5, p + 360, p + 567.5] := by
  simp only [fallbackPmPositions, List.foldl, minPm1ToPm2, minPm2ToPm3, minPm3ToPm4,
    pmSize1, pmSize2, pmSize3, pmSize4]
  norm_num
  constructor <;> ring

theorem calculatePmPositions_none (v : FrameVars) (hfh : v.frame_height = none) :
    calculatePmPositions v = [] := by
  simp only [calculatePmPositions, hfh]

theorem calculatePmPositions_nonpos (v : FrameVars) (h : ℚ) (hfh : v.frame_height = some h)
    (hle : h ≤ 0) : calculatePmPositions v = [] := by
  simp only [calculatePmPositions, hfh]
  rw [if_pos hle]

theorem calculatePmPositions_some (v : FrameVars) (h : ℚ) (hfh : v.frame_height = some h)
    (hpos : ¬h ≤ 0) :
    calculatePmPositions v =
      (if h - pmSize4.2 / 2 ≤ v.pm1_position.getD (-25) + minPm1ToPm2
       then fallbackPmPositions (v.pm1_position.getD (-25))
       else
         match (filterValidRanges (calculateValidRanges (v.pm1_position.getD (-25) + minPm1ToPm2)
             (h - pmSize4.2 / 2) (collectObstacles v))).getLast? with
         | none => fallbackPmPositions (v.pm1_position.getD (-25))
         | some last =>
           [v.pm1_position.getD (-25),
            (optimizePm2Pm3Positions (v.pm1_position.getD (-25)) last.2
              (filterValidRanges (calculateValidRanges (v.pm1_position.getD (-25) + minPm1ToPm2)
                (h - pmSize4.2 / 2) (collectObstacles v)))).1,
            (optimizePm2Pm3Positions (v.pm1_position.getD (-25)) last.2
              (filterValidRanges (calculateValidRanges (v.pm1_position.getD (-25) + minPm1ToPm2)
                (h - pmSize4.2 / 2) (collectObstacles v)))).2,
            last.2]) := by
  simp only [calculatePmPositions, hfh]
  rw [if_neg hpos]

theorem calculatePmPositions_degenerate (v : FrameVars) (h : ℚ)
    (hfh : v.frame_height = some h) (hpos : ¬h ≤ 0)
    (hd : h - pmSize4.2 / 2 ≤ v.pm1_position.getD (-25) + minPm1ToPm2) :
    calculatePmPositions v = fallbackPmPositions (v.pm1_position.getD (-25)) := by
  rw [calculatePmPositions_some v h hfh hpos, if_pos hd]

theorem calculatePmPositions_noranges (v : FrameVars) (h : ℚ)
    (hfh : v.frame_height = some h) (hpos : ¬h ≤ 0)
    (hnd : ¬(h - pmSize4.2 / 2 ≤ v.pm1_position.getD (-25) + minPm1ToPm2))
    (hempty : filterValidRanges (calculateValidRanges (v.pm1_position.getD (-25) + minPm1ToPm2)
      (h - pmSize4.2 / 2) (collectObstacles v)) = []) :
    calculatePmPositions v = fallbackPmPositions (v.pm1_position.getD (-25)) := by
  rw [calculatePmPositions_some v h hfh hpos, if_neg hnd, hempty]
  rfl

theorem calculatePmPositions_normal (v : FrameVars) (h : ℚ) (last : ℚ × ℚ)
    (hfh : v.frame_height = some h) (hpos : ¬h ≤ 0)
    (hnd : ¬(h - pmSize4.2 / 2 ≤ v.pm1_position.getD (-25) + minPm1ToPm2))
    (hlast : (filterValidRanges (calculateValidRanges (v.pm1_position.getD (-25) + minPm1ToPm2)
      (h - pmSize4.2 / 2) (collectObstacles v))).getLast? = some last) :
    calculatePmPositions v =
      [v.pm1_position.getD (-25),
       (optimizePm2Pm3Positions (v.pm1_position.getD (-25)) last.2
         (filterValidRanges (calculateValidRanges (v.pm1_position.getD (-25) + minPm1ToPm2)
           (h - pmSize4.2 / 2) (collectObstacles v)))).1,
       (optimizePm2Pm3Positions (v.pm1_position.getD (-25)) last.2
         (filterValidRanges (calculateValidRanges (v.pm1_position.getD (-25) + minPm1ToPm2)
           (h - pmSize4.2 / 2) (collectObstacles v)))).2,
       last.2] := by
  rw [calculatePmPositions_some v h hfh hpos, if_neg hnd, hlast]

theorem optimize_unconstrained (p1 p4 : ℚ) (R : List (ℚ × ℚ))
    (h23 : ¬(p4 - minPm3ToPm4 - (p1 + minPm1ToPm2) < minPm2ToPm3))
    (h2in : positionInValidRanges (p1 + minPm1ToPm2) R = true)
    (h3in : positionInValidRanges (p4 - minPm3ToPm4) R = true) :
    optimizePm2Pm3Positions p1 p4 R = (p1 + minPm1ToPm2, p4 - minPm3ToPm4) := by
  simp only [optimizePm2Pm3Positions]
  rw [if_neg h23, if_pos h2in, if_pos h3in, if_neg h23]

theorem positionInValidRanges_single (x s e : ℚ) (h1 : s ≤ x) (h2 : x ≤ e) :
    positionInValidRanges x [(s, e)] = true := by
  simp [positionInValidRanges, h1, h2]

theorem filterValidRanges_single_keep (s e : ℚ) (h : minRangeSize ≤ e - s) :
    filterValidRanges [(s, e)] = [(s, e)] := by
  simp [filterValidRanges, List.filter, h]

theorem pm_constants :
    minPm1ToPm2 = 202.5 ∧ minPm2ToPm3 = 157.5 ∧ minPm3ToPm4 = 207.5 ∧
    pmSize4.2 / 2 = 60 ∧ minRangeSize = 120 := by
  norm_num [minPm1ToPm2, minPm2ToPm3, minPm3ToPm4, pmSize1, pmSize2, pmSize3, pmSize4,
    minRangeSize]

theorem calculatePmPositions_no_obstacles (v : FrameVars) (h : ℚ)
    (hfh : v.frame_height = some h) (hobs : collectObstacles v = [])
    (hpos : 0 < h) (hge : v.pm1_position.getD (-25) + 627.5 ≤ h) :
    calculatePmPositions v =
      [v.pm1_position.getD (-25), v.pm1_position.getD (-25) + minPm1ToPm2,
       h - pmSize4.2 / 2 - minPm3ToPm4, h - pmSize4.2 / 2] := by
  obtain ⟨hm12, hm23, hm34, hs4, hmr⟩ := pm_constants
  set p := v.pm1_position.getD (-25) with hp
  have hnpos : ¬h ≤ 0 := not_le.mpr hpos
  have hnd : ¬(h - pmSize4.2 / 2 ≤ p + minPm1ToPm2) := by
    rw [hs4, hm12]
    push_neg
    linarith
  have hR : filterValidRanges (calculateValidRanges (p + minPm1ToPm2)
      (h - pmSize4.2 / 2) (collectObstacles v)) = [(p + minPm1ToPm2, h - pmSize4.2 / 2)] := by
    rw [hobs, calculateValidRanges_nil _ _ (by push_neg at hnd; exact hnd)]
    refine filterValidRanges_single_keep _ _ ?_
    rw [hmr, hs4, hm12]
    linarith
  have hlast : (filterValidRanges (calculateValidRanges (p + minPm1ToPm2)
      (h - pmSize4.2 / 2) (collectObstacles v))).getLast? =
      some (p + minPm1ToPm2, h - pmSize4.2 / 2) := by
    rw [hR]
    rfl
  rw [calculatePmPositions_normal v h (p + minPm1ToPm2, h - pmSize4.2 / 2) hfh hnpos hnd hlast]
  rw [hR]
  have hopt : optimizePm2Pm3Positions p (p + minPm1ToPm2, h - pmSize4.2 / 2).2
      [(p + minPm1ToPm2, h - pmSize4.2 / 2)] =
      (p + minPm1ToPm2, h - pmSize4.2 / 2 - minPm3ToPm4) := by
    refine optimize_unconstrained _ _ _ ?_ ?_ ?_
    · push_neg
      rw [hm12, hm23, hm34]
      linarith
    · refine positionInValidRanges_single _ _ _ le_rfl ?_
      rw [hm12, hs4]
      linarith
    · refine positionInValidRanges_single _ _ _ ?_ ?_
      · rw [hm12, hm34, hs4]
        linarith
      · rw [hm34]
        linarith
  rw [hopt]

theorem hinge_eval_one (h : ℚ) (hh : ¬(h ≤ 0)) :
    calculateHingePositions (some h) 1 = [h / 2] := by
  simp [calculateHingePositions, hh]

theorem hinge_eval_two (h : ℚ) (hh : ¬(h ≤ 0)) :
    calculateHingePositions (some h) 2 = [150, if 2000 ≤ h then 1800 else h - 200] := by
  simp [calculateHingePositions, hh]

theorem hinge_eval_three (h : ℚ) (hh : ¬(h ≤ 0)) :
    calculateHingePositions (some h) 3 =
      [150, 150 + ((if 2000 ≤ h then 1800 else h - 200) - 150) / 2.5,
       if 2000 ≤ h then 1800 else h - 200] := by
  simp [calculateHingePositions, hh]

theorem hinge_eval_four (h : ℚ) (hh : ¬(h ≤ 0)) :
    calculateHingePositions (some h) 4 =
      [150, 150 + ((if 2000 ≤ h then 1800 else h - 200) - 150) / 4.75,
       150 + ((if 2000 ≤ h then 1800 else h - 200) - 150) / 4.75 +
         1.5 * (((if 2000 ≤ h then 1800 else h - 200) - 150) / 4.75),
       if 2000 ≤ h then 1800 else h - 200] := by
  simp [calculateHingePositions, hh]

/-- C5: for every frame height in [840, 2500] and hinge count 1 to 4
the computed hinge positions are strictly increasing and lie within the
frame. -/
theorem hinge_positions_bounds (h : ℚ) (c : ℤ) (h1 : 840 ≤ h) (h2 : h ≤ 2500)
    (hc1 : 1 ≤ c) (hc4 : c ≤ 4) :
    List.Chain' (fun a b => a < b) (calculateHingePositions (some h) c) ∧
    ∀ x ∈ calculateHingePositions (some h) c, 0 ≤ x ∧ x ≤ h := by
  have hh : ¬(h ≤ 0) := by linarith
  have hlp : 640 ≤ (if 2000 ≤ h then 1800 else h - 200) ∧
      (if 2000 ≤ h then 1800 else h - 200) ≤ h - 200 := by
    by_cases h2000 : 2000 ≤ h
    · rw [if_pos h2000]
      constructor <;> linarith
    · rw [if_neg h2000]
      push_neg at h2000
      constructor <;> linarith
  have e25 : (2.5 : ℚ) = 5 / 2 := by norm_num
  have e475 : (4.75 : ℚ) = 19 / 4 := by norm_num
  have e15 : (1.5 : ℚ) = 3 / 2 := by norm_num
  set lp := (if 2000 ≤ h then 1800 else h - 200) with hlpdef
  obtain ⟨hlp1, hlp2⟩ := hlp
  have hcases : c = 1 ∨ c = 2 ∨ c = 3 ∨ c = 4 := by omega
  rcases hcases with hc | hc | hc | hc <;> subst hc
  · rw [hinge_eval_one h hh]
    simp only [List.chain'_singleton, List.mem_singleton, true_and]
    rintro x rfl
    constructor <;> linarith
  · rw [hinge_eval_two h hh]
    rw [← hlpdef]
    simp only [List.chain'_cons, List.chain'_singleton, and_true, List.mem_cons,
      List.mem_singleton, List.not_mem_nil, or_false]
    refine ⟨by linarith, ?_⟩
    rintro x (rfl | rfl) <;> constructor <;> linarith
  · rw [hinge_eval_three h hh]
    rw [← hlpdef, e25]
    simp only [List.chain'_cons, List.chain'_singleton, and_true, List.mem_cons,
      List.mem_singleton, List.not_mem_nil, or_false]
    refine ⟨⟨by linarith, by linarith⟩, ?_⟩
    rintro x (rfl | rfl | rfl) <;> constructor <;> linarith
  · rw [hinge_eval_four h hh]
    rw [← hlpdef, e475, e15]
    simp only [List.chain'_cons, List.chain'_singleton, and_true, List.mem_cons,
      List.mem_singleton, List.not_mem_nil, or_false]
    refine ⟨⟨by linarith, by linarith, by linarith⟩, ?_⟩
    rintro x (rfl | rfl | rfl | rfl) <;> constructor <;> linarith

end FrameTab

namespace FrameTab

theorem convert_no_typeError (pFloat pInt : String → Option ℚ) (text : String) :
    convertEditText pFloat pInt text ≠ Except.error PyExn.typeError := by
  unfold convertEditText
  by_cases h1 : (text.trim).isEmpty
  · simp [h1]
  · by_cases h2 : (text.trim).contains (Char.ofNat 46)
    · cases hpf : pFloat text.trim <;> simp [h1, h2, hpf]
    · cases hpi : pInt text.trim <;> simp [h1, h2, hpi]

theorem calculatePmPositions_pos_shape (v : FrameVars) (h : ℚ)
    (hfh : v.frame_height = some h) (hpos : 0 < h) :
    (calculatePmPositions v).length = 4 ∧
    (calculatePmPositions v).head? = some (v.pm1_position.getD (-25)) := by
  have hnpos : ¬h ≤ 0 := not_le.mpr hpos
  by_cases hd : h - pmSize4.2 / 2 ≤ v.pm1_position.getD (-25) + minPm1ToPm2
  · rw [calculatePmPositions_degenerate v h hfh hnpos hd, fallbackPmPositions_eq]
    exact ⟨rfl, rfl⟩
  · cases hlast : (filterValidRanges (calculateValidRanges (v.pm1_position.getD (-25) + minPm1ToPm2)
        (h - pmSize4.2 / 2) (collectObstacles v))).getLast? with
    | none =>
      have hempty := List.getLast?_eq_none_iff.mp hlast
      rw [calculatePmPositions_noranges v h hfh hnpos hd hempty, fallbackPmPositions_eq]
      exact ⟨rfl, rfl⟩
    | some last =>
      rw [calculatePmPositions_normal v h last hfh hnpos hd hlast]
      exact ⟨rfl, rfl⟩

/-- C2: for every store with PM1 anchor -25, an empty obstacle list and
frame height 2100, the solver returns [-25, 177.5, 1832.5, 2040], whose
consecutive gaps meet the minimum clearances 202.5, 157.5, 207.5. -/
theorem pm_positions_at_2100_no_obstacles (v : FrameVars)
    (hfh : v.frame_height = some 2100) (hp1 : v.pm1_position = some (-25))
    (hobs : collectObstacles v = []) :
    calculatePmPositions v = [-25, 177.5, 1832.5, 2040] ∧
    (202.5 : ℚ) ≤ 177.5 - (-25) ∧ (157.5 : ℚ) ≤ 1832.5 - 177.5 ∧
    (207.5 : ℚ) ≤ 2040 - 1832.5 := by
  refine ⟨?_, by norm_num, by norm_num, by norm_num⟩
  have heq := calculatePmPositions_no_obstacles v 2100 hfh hobs (by norm_num)
    (by rw [hp1]; norm_num [Option.getD])
  rw [heq, hp1]
  norm_num [Option.getD, minPm1ToPm2, minPm3ToPm4, pmSize1, pmSize2, pmSize3, pmSize4]

/-- C2 witness: the theorem applied to the concrete store with height 2100
and anchor -25. -/
theorem pm_positions_at_2100_no_obstacles_witness :
    calculatePmPositions (mkVars (some 2100) (some (-25))) = [-25, 177.5, 1832.5, 2040] :=
  (pm_positions_at_2100_no_obstacles (mkVars (some 2100) (some (-25))) rfl rfl rfl).1

/-- C4 counterexample: at frame height 840 with PM1 = -25 and no active
obstacles the solver does not fall back: it returns [-25, 177.5, 572.5, 780],
not the cumulative minimum-clearance sums [-25, 177.5, 335, 542.5]. -/
theorem pm_840_no_obstacles_not_fallback :
    calculatePmPositions (mkVars (some 840) (some (-25))) = [-25, 177.5, 572.5, 780] ∧
    calculatePmPositions (mkVars (some 840) (some (-25))) ≠ [-25, 177.5, 335, 542.5] := by
  have heval : calculatePmPositions (mkVars (some 840) (some (-25))) =
      [-25, 177.5, 572.5, 780] := by
    norm_num [calculatePmPositions, mkVars, collectObstacles, obstacleOf, minPm1ToPm2,
      minPm2ToPm3, minPm3ToPm4, pmSize1, pmSize2, pmSize3, pmSize4,
      calculateValidRanges, filterValidRanges, rangeSubtractStep, minRangeSize,
      List.insertionSort, List.foldl, List.filter, List.getLast?,
      optimizePm2Pm3Positions, positionInValidRanges, List.any, List.find?, fallbackPmPositions]
  refine ⟨heval, ?_⟩
  rw [heval]
  norm_num

/-- C4 (amended): at frame height 840 with PM1 = -25 and the default
active obstacles (lock at 1050, hinges at 150, 346, 640) every valid range
is rejected and the solver takes the fallback path, returning the
cumulative minimum-clearance sums from -25. -/
theorem pm_840_default_state_fallback :
    calculatePmPositions vars840Default = fallbackPmPositions (-25) ∧
    calculatePmPositions vars840Default = [-25, 177.5, 335, 542.5] := by
  have heval : calculatePmPositions vars840Default = [-25, 177.5, 335, 542.5] := by
    norm_num [calculatePmPositions, vars840Default, mkVars, collectObstacles, obstacleOf,
      minPm1ToPm2, minPm2ToPm3, minPm3ToPm4, pmSize1, pmSize2, pmSize3, pmSize4,
      lockSafetyDistance, hingeSafetyDistance,
      calculateValidRanges, filterValidRanges, rangeSubtractStep, minRangeSize,
      List.insertionSort, List.orderedInsert, List.foldl, List.filter, List.getLast?,
      optimizePm2Pm3Positions, positionInValidRanges, List.any, List.find?, fallbackPmPositions]
  refine ⟨?_, heval⟩
  rw [heval, fallbackPmPositions_eq]
  norm_num

/-- C1 counterexample: with frame height 882.5, PM1 anchor 500 and no
active obstacles the solver returns four positions [500, 702.5, 860, 822.5]
whose PM3 to PM4 gap is negative, violating the data-model invariant. -/
theorem pm_invariant_fails_at_500 :
    (calculatePmPositions (mkVars (some 882.5) (some 500))).length = 4 ∧
    pmPlacementInvariant 882.5 (collectObstacles (mkVars (some 882.5) (some 500)))
      (calculatePmPositions (mkVars (some 882.5) (some 500))) = false := by
  have heval : calculatePmPositions (mkVars (some 882.5) (some 500)) =
      [500, 702.5, 860, 822.5] := by
    norm_num [calculatePmPositions, mkVars, collectObstacles, obstacleOf, minPm1ToPm2,
      minPm2ToPm3, minPm3ToPm4, pmSize1, pmSize2, pmSize3, pmSize4,
      calculateValidRanges, filterValidRanges, rangeSubtractStep, minRangeSize,
      List.insertionSort, List.foldl, List.filter, List.getLast?,
      optimizePm2Pm3Positions, positionInValidRanges, List.any, List.find?, fallbackPmPositions]
  rw [heval]
  refine ⟨rfl, ?_⟩
  norm_num [pmPlacementInvariant, collectObstacles, mkVars, obstacleOf,
    minPm1ToPm2, minPm2ToPm3, minPm3ToPm4, pmSize1, pmSize2, pmSize3, pmSize4]

/-- C1 (amended): when no obstacle is active and the frame height is
positive and at least PM1 + 627.5, the placement returned by the solver
satisfies the data-model invariant: consecutive clearances 202.5, 157.5,
207.5, no PM center in an obstacle interval, and PM4 at most frame height
minus 60. -/
theorem pm_invariant_no_active_obstacles (v : FrameVars) (h : ℚ)
    (hfh : v.frame_height = some h) (hobs : collectObstacles v = [])
    (hpos : 0 < h) (hge : v.pm1_position.getD (-25) + 627.5 ≤ h) :
    pmPlacementInvariant h (collectObstacles v) (calculatePmPositions v) = true := by
  rw [calculatePmPositions_no_obstacles v h hfh hobs hpos hge, hobs]
  obtain ⟨hm12, hm23, hm34, hs4, -⟩ := pm_constants
  simp only [pmPlacementInvariant, List.all_nil, List.all_cons, Bool.and_true,
    Bool.and_eq_true, decide_eq_true_eq]
  rw [hm12, hm23, hm34, hs4]
  refine ⟨⟨⟨by linarith, by linarith⟩, by linarith⟩, by linarith⟩

/-- C1 witness: the amended invariant theorem applied at frame height 2100
with anchor -25 and no obstacles. -/
theorem pm_invariant_no_active_obstacles_witness :
    pmPlacementInvariant 2100 (collectObstacles (mkVars (some 2100) (some (-25))))
      (calculatePmPositions (mkVars (some 2100) (some (-25)))) = true :=
  pm_invariant_no_active_obstacles (mkVars (some 2100) (some (-25))) 2100 rfl rfl
    (by norm_num) (by norm_num [mkVars, Option.getD])

/-- C3: whenever the usable span is degenerate or no filtered valid range
remains, the solver returns PM2 to PM4 at cumulative minimum clearances
from the PM1 anchor. -/
theorem pm_fallback_on_insufficient_space (v : FrameVars) (h : ℚ)
    (hfh : v.frame_height = some h) (hpos : 0 < h)
    (hcond : h - pmSize4.2 / 2 ≤ v.pm1_position.getD (-25) + minPm1ToPm2 ∨
      filterValidRanges (calculateValidRanges (v.pm1_position.getD (-25) + minPm1ToPm2)
        (h - pmSize4.2 / 2) (collectObstacles v)) = []) :
    calculatePmPositions v =
      [v.pm1_position.getD (-25), v.pm1_position.getD (-25) + 202.5,
       v.pm1_position.getD (-25) + 360, v.pm1_position.getD (-25) + 567.5] := by
  have hnpos : ¬h ≤ 0 := not_le.mpr hpos
  rcases hcond with hd | hempty
  · rw [calculatePmPositions_degenerate v h hfh hnpos hd, fallbackPmPositions_eq]
  · by_cases hd : h - pmSize4.2 / 2 ≤ v.pm1_position.getD (-25) + minPm1ToPm2
    · rw [calculatePmPositions_degenerate v h hfh hnpos hd, fallbackPmPositions_eq]
    · rw [calculatePmPositions_noranges v h hfh hnpos hd hempty, fallbackPmPositions_eq]

/-- C3 witness: the fallback theorem applied at frame height 100 (span
degenerate) with the default anchor. -/
theorem pm_fallback_on_insufficient_space_witness :
    calculatePmPositions (mkVars (some 100) none) = [-25, 177.5, 335, 542.5] := by
  have h := pm_fallback_on_insufficient_space (mkVars (some 100) none) 100 rfl
    (by norm_num)
    (Or.inl (by norm_num [mkVars, Option.getD, pmSize4, minPm1ToPm2, pmSize1, pmSize2]))
  rw [h]
  norm_num [mkVars, Option.getD]

/-- C5 witness: the hinge bounds theorem applied at height 840 with
three hinges. -/
theorem hinge_positions_bounds_witness :
    List.Chain' (fun a b => a < b) (calculateHingePositions (some 840) 3) ∧
    ∀ x ∈ calculateHingePositions (some 840) 3, 0 ≤ x ∧ x ≤ 840 :=
  hinge_positions_bounds 840 3 (by norm_num) (by norm_num) (by norm_num) (by norm_num)

/-- C6: at frame height 840 with three hinges the computed positions are
[150, 346, 640]: the upper segment (640 - 346) is 1.5 times the lower
segment (346 - 150), the opposite of the claimed ratio, so the lower
segment is not 1.5 times the upper one. -/
theorem hinge_three_ratio_at_840 :
    calculateHingePositions (some 840) 3 = [150, 346, 640] ∧
    (640 : ℚ) - 346 = 1.5 * (346 - 150) ∧ ¬((346 : ℚ) - 150 = 1.5 * (640 - 346)) := by
  refine ⟨?_, by norm_num, by norm_num⟩
  rw [hinge_eval_three 840 (by norm_num)]
  norm_num

/-- C7: for a proper span and well-formed obstacle intervals the range
subtraction returns ordered pairwise-disjoint nonempty subranges of the
span whose union (in the half-open reading) is exactly the span minus the
obstacle intervals; the empty obstacle list yields the single full range,
and the filtering step of the caller keeps exactly the ranges of at least
the minimum width. -/
theorem valid_ranges_correct (rs re : ℚ) (obstacles : List (ℚ × ℚ)) (hrs : rs < re)
    (hwf : ∀ ob ∈ obstacles, ob.1 ≤ ob.2) :
    (∀ r ∈ calculateValidRanges rs re obstacles, rs ≤ r.1 ∧ r.1 < r.2 ∧ r.2 ≤ re) ∧
    List.Chain' (fun a b => a.2 ≤ b.1) (calculateValidRanges rs re obstacles) ∧
    (∀ x : ℚ, (∃ r ∈ calculateValidRanges rs re obstacles, r.1 ≤ x ∧ x < r.2) ↔
      (rs ≤ x ∧ x < re ∧ ∀ ob ∈ obstacles, ¬(ob.1 ≤ x ∧ x < ob.2))) ∧
    (obstacles = [] → calculateValidRanges rs re obstacles = [(rs, re)]) ∧
    (∀ r, r ∈ filterValidRanges (calculateValidRanges rs re obstacles) ↔
      r ∈ calculateValidRanges rs re obstacles ∧ minRangeSize ≤ r.2 - r.1) := by
  obtain ⟨s1, s2, s3⟩ := valid_ranges_spec rs re obstacles hrs hwf
  refine ⟨s1, s2, s3, ?_, ?_⟩
  · rintro rfl
    exact calculateValidRanges_nil rs re hrs
  · intro r
    exact mem_filterValidRanges _ r

/-- C7 witness: the range correctness theorem applied to the span 0 to
1000 with the single obstacle interval (100, 300). -/
theorem valid_ranges_correct_witness :
    (∀ r ∈ calculateValidRanges 0 1000 [((100 : ℚ), (300 : ℚ))],
      (0 : ℚ) ≤ r.1 ∧ r.1 < r.2 ∧ r.2 ≤ 1000) ∧
    List.Chain' (fun a b => a.2 ≤ b.1) (calculateValidRanges 0 1000 [((100 : ℚ), (300 : ℚ))]) :=
  ⟨(valid_ranges_correct 0 1000 [((100 : ℚ), (300 : ℚ))] (by norm_num)
      (by intro ob hob; rw [List.mem_singleton] at hob; subst hob; norm_num)).1,
   (valid_ranges_correct 0 1000 [((100 : ℚ), (300 : ℚ))] (by norm_num)
      (by intro ob hob; rw [List.mem_singleton] at hob; subst hob; norm_num)).2.1⟩

/-- C8 counterexample: with no frame height stored (read as 0) and PM
positions at exact minimum spacing with PM4 = 567.5 above the limit
0 - 60, the validation leaves PM4 unflagged because the boundary check is
guarded by a positive frame height. -/
theorem validation_pm4_unflagged_at_zero_height :
    getOrZero varsNoHeight.frame_height - pmSize4.2 / 2 <
      getOrZero varsNoHeight.pm4_position ∧
    (runValidation varsNoHeight).getD 3 false = false := by
  constructor
  · norm_num [getOrZero, varsNoHeight, mkVars, pmSize4]
  · norm_num [runValidation, varsNoHeight, mkVars, getOrZero, validationObstacles,
      minPm1ToPm2, minPm2ToPm3, minPm3ToPm4, pmSize1, pmSize2, pmSize3, pmSize4,
      lockSafetyDistance, hingeSafetyDistance, List.getD]

/-- C8 (amended): whenever the stored frame height is positive and the
stored PM4 position exceeds frame height minus 60 (half the PM4 height),
the validation flags PM4. -/
theorem validation_flags_pm4_when_height_positive (v : FrameVars)
    (hh : 0 < getOrZero v.frame_height)
    (hp : getOrZero v.frame_height - pmSize4.2 / 2 < getOrZero v.pm4_position) :
    (runValidation v).getD 3 false = true := by
  simp only [runValidation, List.getD, decide_eq_true hh, decide_eq_true hp,
    Bool.and_true, Bool.true_and, Bool.or_true]
  rfl

/-- C8 witness: the flag theorem applied to a store with height 840 and
PM4 at 800. -/
theorem validation_flags_pm4_when_height_positive_witness :
    (runValidation varsPm4High).getD 3 false = true :=
  validation_flags_pm4_when_height_positive varsPm4High
    (by norm_num [getOrZero, varsPm4High, mkVars])
    (by norm_num [getOrZero, varsPm4High, mkVars, pmSize4])

/-- C9: the solver body never raises for any typed store, so the method
returns normally with the pure result, and the editing-finished handler
always returns normally: it reverts exactly when the conversion raised
ValueError, and otherwise forwards the parsed value. -/
theorem solver_and_edit_no_exception (v : FrameVars)
    (pFloat pInt : String → Option ℚ) (text : String) :
    calculatePmPositionsExc v = Except.ok (calculatePmPositions v) ∧
    editingFinished pFloat pInt text =
      Except.ok (match convertEditText pFloat pInt text with
        | Except.ok q => EditResult.changed q
        | Except.error _ => EditResult.reverted) := by
  refine ⟨rfl, ?_⟩
  cases hconv : convertEditText pFloat pInt text with
  | ok q => simp [editingFinished, hconv]
  | error e =>
    cases e with
    | valueError => simp [editingFinished, hconv]
    | typeError => exact absurd hconv (convert_no_typeError pFloat pInt text)

/-- C10: the solver returns the empty list exactly when the frame height
is unset or nonpositive; for a positive height it returns exactly four
positions whose first element is the stored PM1 anchor, defaulting
to -25. -/
theorem solver_output_shape (v : FrameVars) :
    (calculatePmPositions v = [] ↔
      v.frame_height = none ∨ ∃ h, v.frame_height = some h ∧ h ≤ 0) ∧
    (∀ h, v.frame_height = some h → 0 < h →
      (calculatePmPositions v).length = 4 ∧
      (calculatePmPositions v).head? = some (v.pm1_position.getD (-25))) := by
  constructor
  · constructor
    · intro hempty
      cases hfh : v.frame_height with
      | none => exact Or.inl rfl
      | some h =>
        by_cases hle : h ≤ 0
        · exact Or.inr ⟨h, rfl, hle⟩
        · exfalso
          have hlen := (calculatePmPositions_pos_shape v h hfh (not_le.mp hle)).1
          rw [hempty] at hlen
          simp at hlen
    · rintro (hfh | ⟨h, hfh, hle⟩)
      · exact calculatePmPositions_none v hfh
      · exact calculatePmPositions_nonpos v h hfh hle
  · intro h hfh hpos
    exact calculatePmPositions_pos_shape v h hfh hpos

/-- C10 witness: the shape theorem applied at frame height 2100 with
anchor -25. -/
theorem solver_output_shape_witness :
    (calculatePmPositions (mkVars (some 2100) (some (-25)))).length = 4 ∧
    (calculatePmPositions (mkVars (some 2100) (some (-25)))).head? = some (-25) :=
  (solver_output_shape (mkVars (some 2100) (some (-25)))).2 2100 rfl (by norm_num)

end FrameTab
